import Mathlib

/-!
Shallow embedding of the rustlox sources (`src/scanner.rs`, `src/object.rs`,
`src/stmt.rs`) together with spec-modelled stand-ins for the collaborator
modules that are not part of the sources (`environment.rs`, `interpreter.rs`,
`expr.rs`, `token.rs`, `runtime_error.rs`).

Conventions of the embedding:
* Source bytes are `Nat` values below 256; a Rust `&[u8]` becomes `List Nat`.
* Rust `f64` is modelled by `F64`: either NaN or a finite value carried by a
  rational number.  The claims under study depend only on IEEE equality's
  treatment of NaN and on structural pass-through, both captured by `F64.feq`.
* A Rust `panic!`/`unreachable!()`/out-of-bounds index is modelled by an
  `Option` result being `none`.
-/

namespace Rustlox

/-- Converts the characters of an ASCII string literal to their byte values,
used to write byte-slice literals such as Rust's `b"nd"`. -/
def strBytes (s : String) : List Nat :=
  s.data.map Char.toNat

/-! ## Scanner (`src/scanner.rs`) -/

/-- `TokenKind` from scanner.rs: the closed lexical-category set. -/
inductive TokenKind where
  | LeftParen | RightParen | LeftBrace | RightBrace
  | Comma | Dot | Minus | Plus | Semicolon | Slash | Star
  | Bang | BangEqual | Equal | EqualEqual
  | Greater | GreaterEqual | Less | LessEqual
  | Identifier | String | Number
  | And | Class | Else | False | For | Fun | If | Nil | Or
  | Print | Return | Super | This | True | Var | While
  | Error | Eof
deriving DecidableEq, Repr

/-- `Token` from scanner.rs: `{kind, lexeme: Vec<u8>, line}`. -/
structure Token where
  kind : TokenKind
  lexeme : List Nat
  line : Nat
deriving DecidableEq, Repr

/-- `Scanner` from scanner.rs: `{source: &[u8], start, current, line}`. -/
structure Scanner where
  source : List Nat
  start : Nat
  current : Nat
  line : Nat
deriving DecidableEq, Repr

namespace Scanner

/-- `Scanner::new`. -/
def new (source : List Nat) : Scanner :=
  { source := source, start := 0, current := 0, line := 1 }

/-- `Scanner::is_at_end`: `current >= source.len()`. -/
def is_at_end (s : Scanner) : Bool :=
  s.source.length ≤ s.current

/-- `Scanner::peek`: the byte at `current`, or `b'\0'` at the end.
`List.getD` returns the element when `current` is in bounds and the default 0
otherwise, exactly the two branches of the Rust function. -/
def peek (s : Scanner) : Nat :=
  s.source.getD s.current 0

/-- `Scanner::peek_next`: the byte at `current + 1`, or `b'\0'` past the end. -/
def peek_next (s : Scanner) : Nat :=
  s.source.getD (s.current + 1) 0

/-- `Scanner::advance`: increments `current` and returns the byte it stepped
over.  The Rust code indexes `source[current - 1]` unconditionally; every call
site has already established `current < source.len()`, so the `getD` default
is never produced there. -/
def advance (s : Scanner) : Nat × Scanner :=
  (s.source.getD s.current 0, { s with current := s.current + 1 })

/-- `Scanner::matches`: a conditional one-byte advance. -/
def matchesB (s : Scanner) (expected : Nat) : Bool × Scanner :=
  if s.is_at_end ∨ s.source.getD s.current 0 ≠ expected then
    (false, s)
  else
    (true, { s with current := s.current + 1 })

/-- `Scanner::make_token`: the token's lexeme is `source[start..current]`. -/
def make_token (s : Scanner) (kind : TokenKind) : Token :=
  { kind := kind, lexeme := (s.source.drop s.start).take (s.current - s.start), line := s.line }

/-- `Scanner::error_token`: an Error token whose lexeme is the message bytes. -/
def error_token (s : Scanner) (message : String) : Token :=
  { kind := TokenKind.Error, lexeme := strBytes message, line := s.line }

/-- `u8::is_ascii_digit` on a byte value. -/
def isAsciiDigit (c : Nat) : Bool :=
  decide (48 ≤ c ∧ c ≤ 57)

/-- `Scanner::is_alpha`: `c.is_ascii_alphabetic() || c == b'_'`. -/
def isAlpha (c : Nat) : Bool :=
  decide ((65 ≤ c ∧ c ≤ 90) ∨ (97 ≤ c ∧ c ≤ 122) ∨ c = 95)

/-- The comment-consuming loop inside `Scanner::skip_whitespace`
(`while self.peek() != b'\n' && !self.is_at_end() { self.advance(); }`):
its effect is to move `current` past every byte up to, but excluding, the next
newline or the end of input. -/
def skipLineComment (s : Scanner) : Scanner :=
  { s with current := s.current + ((s.source.drop s.current).takeWhile (fun c => c != 10)).length }

/-- The body of `Scanner::skip_whitespace`'s `loop`, with an explicit
iteration budget so that the recursion is structural: skips blanks, tabs,
carriage returns, newlines (counting lines) and `//` line comments.  Each
iteration that continues the loop consumes at least one byte, so a budget
exceeding the bytes left never runs out; `skip_whitespace` passes such a
budget, and `skipWsFuel_eq_skip_whitespace` below shows the wrapper satisfies
the loop's defining equation. -/
def skipWsFuel : Nat → Scanner → Scanner
  | 0, s => s
  | fuel + 1, s =>
    if s.peek = 32 ∨ s.peek = 13 ∨ s.peek = 9 then
      skipWsFuel fuel (s.advance).2
    else if s.peek = 10 then
      skipWsFuel fuel ({ s with line := s.line + 1 }.advance).2
    else if s.peek = 47 then
      if s.peek_next = 47 then skipWsFuel fuel s.skipLineComment
      else s
    else s

/-- `Scanner::skip_whitespace`: the loop, run with a sufficient budget. -/
def skip_whitespace (s : Scanner) : Scanner :=
  skipWsFuel (s.source.length - s.current + 1) s

/-- `Scanner::string`, entered after the opening `"` has been consumed: the
scanning loop (`while self.peek() != b'"' && !self.is_at_end()`) moves
`current` past every byte up to the closing quote or the end of input and
bumps `line` once per newline consumed; then an unterminated string becomes
an Error token, a terminated one consumes the closing quote and becomes a
String token. -/
def string (s : Scanner) : Token × Scanner :=
  let seg := (s.source.drop s.current).takeWhile (fun c => c != 34)
  let s1 : Scanner :=
    { s with current := s.current + seg.length, line := s.line + seg.count 10 }
  if s1.is_at_end then
    (s1.error_token "Unterminated string.", s1)
  else
    let s2 := (s1.advance).2
    (s2.make_token TokenKind.String, s2)

/-- `Scanner::number`: a run of digits, optionally followed by `.` and a
second run of digits when the byte after the dot is a digit. -/
def number (s : Scanner) : Token × Scanner :=
  let s1 : Scanner :=
    { s with current := s.current + ((s.source.drop s.current).takeWhile isAsciiDigit).length }
  let s2 : Scanner :=
    if s1.peek = 46 ∧ isAsciiDigit s1.peek_next then
      let s1a := (s1.advance).2
      { s1a with current := s1a.current + ((s1a.source.drop s1a.current).takeWhile isAsciiDigit).length }
    else s1
  (s2.make_token TokenKind.Number, s2)

/-- `Scanner::check_keyword`: the candidate matches the keyword when the
remaining lexeme length equals `rest.len()` and the bytes
`source[start + start_offset..current]` equal `rest`. -/
def check_keyword (s : Scanner) (start_offset : Nat) (rest : List Nat)
    (kind : TokenKind) : TokenKind :=
  if s.current - (s.start + start_offset) = rest.length
      ∧ (s.source.drop (s.start + start_offset)).take (s.current - (s.start + start_offset)) = rest
  then kind
  else TokenKind.Identifier

/-- `Scanner::identifier_kind`: first-letter dispatch over the fixed keyword
table, with second-letter dispatch for the ambiguous prefixes `f` and `t`. -/
def identifier_kind (s : Scanner) : TokenKind :=
  match s.source.getD s.start 0 with
  | 97 => s.check_keyword 1 (strBytes "nd") TokenKind.And
  | 99 => s.check_keyword 1 (strBytes "lass") TokenKind.Class
  | 101 => s.check_keyword 1 (strBytes "lse") TokenKind.Else
  | 102 =>
    if 1 < s.current - s.start then
      match s.source.getD (s.start + 1) 0 with
      | 97 => s.check_keyword 2 (strBytes "lse") TokenKind.False
      | 111 => s.check_keyword 2 (strBytes "r") TokenKind.For
      | 117 => s.check_keyword 2 (strBytes "n") TokenKind.Fun
      | _ => TokenKind.Identifier
    else TokenKind.Identifier
  | 105 => s.check_keyword 1 (strBytes "f") TokenKind.If
  | 110 => s.check_keyword 1 (strBytes "il") TokenKind.Nil
  | 111 => s.check_keyword 1 (strBytes "r") TokenKind.Or
  | 112 => s.check_keyword 1 (strBytes "rint") TokenKind.Print
  | 114 => s.check_keyword 1 (strBytes "eturn") TokenKind.Return
  | 115 => s.check_keyword 1 (strBytes "uper") TokenKind.Super
  | 116 =>
    if 1 < s.current - s.start then
      match s.source.getD (s.start + 1) 0 with
      | 104 => s.check_keyword 2 (strBytes "is") TokenKind.This
      | 114 => s.check_keyword 2 (strBytes "ue") TokenKind.True
      | _ => TokenKind.Identifier
    else TokenKind.Identifier
  | 118 => s.check_keyword 1 (strBytes "ar") TokenKind.Var
  | 119 => s.check_keyword 1 (strBytes "hile") TokenKind.While
  | _ => TokenKind.Identifier

/-- `Scanner::identifier`: the loop
(`while is_alpha(peek) || peek.is_ascii_digit()`) consumes the identifier's
remaining bytes, then the lexeme is classified by `identifier_kind`. -/
def identifier (s : Scanner) : Token × Scanner :=
  let s1 : Scanner :=
    { s with current :=
        s.current + ((s.source.drop s.current).takeWhile (fun c => isAlpha c || isAsciiDigit c)).length }
  (s1.make_token s1.identifier_kind, s1)

/-- `Scanner::scan_token`: skip whitespace and comments, anchor `start`,
then dispatch on one consumed byte. -/
def scan_token (s0 : Scanner) : Token × Scanner :=
  let s1 := s0.skip_whitespace
  let s : Scanner := { s1 with start := s1.current }
  if s.is_at_end then (s.make_token TokenKind.Eof, s)
  else
    let (c, s) := s.advance
    match c with
    | 40 => (s.make_token TokenKind.LeftParen, s)
    | 41 => (s.make_token TokenKind.RightParen, s)
    | 123 => (s.make_token TokenKind.LeftBrace, s)
    | 125 => (s.make_token TokenKind.RightBrace, s)
    | 59 => (s.make_token TokenKind.Semicolon, s)
    | 44 => (s.make_token TokenKind.Comma, s)
    | 46 => (s.make_token TokenKind.Dot, s)
    | 45 => (s.make_token TokenKind.Minus, s)
    | 43 => (s.make_token TokenKind.Plus, s)
    | 47 => (s.make_token TokenKind.Slash, s)
    | 42 => (s.make_token TokenKind.Star, s)
    | 33 =>
      let (m, s) := s.matchesB 61
      (s.make_token (if m then TokenKind.BangEqual else TokenKind.Bang), s)
    | 61 =>
      let (m, s) := s.matchesB 61
      (s.make_token (if m then TokenKind.EqualEqual else TokenKind.Equal), s)
    | 60 =>
      let (m, s) := s.matchesB 61
      (s.make_token (if m then TokenKind.LessEqual else TokenKind.Less), s)
    | 62 =>
      let (m, s) := s.matchesB 61
      (s.make_token (if m then TokenKind.GreaterEqual else TokenKind.Greater), s)
    | 34 => s.string
    | c =>
      if isAsciiDigit c then s.number
      else if isAlpha c then s.identifier
      else (s.error_token "Unexpected character.", s)

end Scanner

/-- `Default for Token`: an Error token with an empty lexeme at line 0. -/
def Token.default : Token :=
  { kind := TokenKind.Error, lexeme := [], line := 0 }

/-- The fixed keyword table as the spec states it; the classification theorem
compares the scanner's first/second-letter dispatch against every entry. -/
def keywordTable : List (String × TokenKind) :=
  [("and", TokenKind.And), ("class", TokenKind.Class), ("else", TokenKind.Else),
   ("false", TokenKind.False), ("for", TokenKind.For), ("fun", TokenKind.Fun),
   ("if", TokenKind.If), ("nil", TokenKind.Nil), ("or", TokenKind.Or),
   ("print", TokenKind.Print), ("return", TokenKind.Return),
   ("super", TokenKind.Super), ("this", TokenKind.This),
   ("true", TokenKind.True), ("var", TokenKind.Var),
   ("while", TokenKind.While)]

/-! ## Runtime values (`src/object.rs`) and statements (`src/stmt.rs`) -/

/-- Model of Rust `f64`: NaN, or a finite value carried by a rational.  The
claims under study depend only on structural pass-through of numbers and on
IEEE equality's treatment of NaN, both captured here; rounding, infinities
and signed zero play no role in them. -/
inductive F64 where
  | nan : F64
  | fin : ℚ → F64
deriving DecidableEq, Repr

/-- IEEE `==` on `f64` in the model: NaN is unequal to everything, itself
included; finite values compare by value. -/
def F64.feq : F64 → F64 → Bool
  | .fin a, .fin b => a == b
  | _, _ => false

/-- Modelled from the spec: `expr.rs` is not among the sources.  §3 lists the
expression forms (literal, variable reference, assignment, unary, binary,
short-circuit logical, grouping, call).  No claim scrutinises an expression's
structure. -/
inductive LitVal where
  | nil : LitVal
  | bool (b : Bool) : LitVal
  | number (n : F64) : LitVal
  | string (s : List Nat) : LitVal

/-- Modelled from the spec: `expr.rs` is not among the sources; §3's
expression variant set.  `token.rs`'s parser-facing `Token` is also absent;
§3 describes a single Token shape `{kind, lexeme: raw bytes, line}`, which the
scanner's `Token` already embodies, so it is reused here. -/
inductive Expr where
  | literal (value : LitVal)
  | variable (name : Token)
  | assign (name : Token) (value : Expr)
  | unary (op : Token) (right : Expr)
  | binary (left : Expr) (op : Token) (right : Expr)
  | logical (left : Expr) (op : Token) (right : Expr)
  | grouping (e : Expr)
  | call (callee : Expr) (arguments : List Expr)

mutual

/-- `Stmt` from stmt.rs: the closed statement variant set.  The Rust variants
wrap one struct each; the structs' fields are inlined except for
`stmt::Function`, kept as `FunctionDecl` because `object.rs` stores it inside
a function value. -/
inductive Stmt where
  | block (statements : List Stmt)
  | expression (e : Expr)
  | function (f : FunctionDecl)
  | ifS (condition : Expr) (thenBranch : Stmt) (elseBranch : Option Stmt)
  | print (e : Expr)
  | var (name : Token) (initializer : Option Expr)
  | whileS (condition : Expr) (body : Stmt)

/-- `stmt::Function` from stmt.rs: `{name, params, body}`. -/
inductive FunctionDecl where
  | mk (name : Token) (params : List Token) (body : List Stmt)

end

/-- Field accessor for `stmt::Function::name`. -/
def FunctionDecl.name : FunctionDecl → Token
  | .mk n _ _ => n

/-- Field accessor for `stmt::Function::params`. -/
def FunctionDecl.params : FunctionDecl → List Token
  | .mk _ p _ => p

/-- Field accessor for `stmt::Function::body`. -/
def FunctionDecl.body : FunctionDecl → List Stmt
  | .mk _ _ b => b

/-- `LoxFunction` from object.rs: owns its declaration (and nothing else —
no captured environment). -/
structure LoxFunction where
  declaration : FunctionDecl

/-- `Object` from object.rs: the tagged runtime value.  A `String`'s owned
text is its UTF-8 byte list.  A `BuiltinFunction` stores its declared arity
and its `fn` pointer, the latter modelled by the pointer's identity `fid`;
the pointer is dereferenced through `Interpreter.native`. -/
inductive Object where
  | nil
  | string (s : List Nat)
  | number (n : F64)
  | bool (b : Bool)
  | builtinFunction (arity : Nat) (fid : Nat)
  | function (f : LoxFunction)

namespace Object

/-- `Object::is_nil`. -/
def is_nil : Object → Bool
  | .nil => true
  | _ => false

/-- `Object::is_string`. -/
def is_string : Object → Bool
  | .string _ => true
  | _ => false

/-- `Object::is_number`. -/
def is_number : Object → Bool
  | .number _ => true
  | _ => false

/-- `Object::is_bool`. -/
def is_bool : Object → Bool
  | .bool _ => true
  | _ => false

/-- `Object::is_callable`: the exhaustive match over the tag. -/
def is_callable : Object → Bool
  | .nil => false
  | .string _ => false
  | .number _ => false
  | .bool _ => false
  | .builtinFunction _ _ => true
  | .function _ => true

/-- `Object::as_number`; `none` models the `unreachable!()` panic reached on
the two callable variants.  `Bool(b)` goes through `b as i32 as f64`, i.e.
1 or 0; `String(s)` maps to `s.len() as f64`, the byte length. -/
def as_number : Object → Option F64
  | .nil => some (.fin 0)
  | .string s => some (.fin s.length)
  | .number n => some n
  | .bool b => some (.fin (if b then 1 else 0))
  | _ => none

/-- `Object::as_bool`: only Nil and Bool(false) are falsy. -/
def as_bool : Object → Bool
  | .bool b => b
  | .nil => false
  | _ => true

/-- The number rendering of the `Display` implementation (`"{}"` on `f64`),
modelled as the rational's canonical rendering; no claim evaluates it. -/
def numberDisplayBytes : F64 → List Nat
  | .nan => strBytes "NaN"
  | .fin q => strBytes (toString q)

/-- The `Display for Object` implementation, as rendered bytes. -/
def displayBytes : Object → List Nat
  | .nil => strBytes "nil"
  | .string s => s
  | .number n => numberDisplayBytes n
  | .bool b => if b then strBytes "true" else strBytes "false"
  | .builtinFunction _ _ => strBytes "<native fn>"
  | .function f => strBytes "<fn " ++ f.declaration.name.lexeme ++ strBytes ">"

/-- `Object::as_string`: a String's own text, any other variant's display
form. -/
def as_string (self : Object) : List Nat :=
  match self with
  | .string s => s
  | o => o.displayBytes

/-- The `PartialEq for Object` implementation.  In the number branch both
operands are `Number`, where `as_number` is defined, so the `getD` default is
never consulted. -/
def eq (a b : Object) : Bool :=
  if a.is_nil && b.is_nil then true
  else if a.is_nil || b.is_nil then false
  else if a.is_bool && b.is_bool then a.as_bool == b.as_bool
  else if a.is_number && b.is_number then
    F64.feq (a.as_number.getD .nan) (b.as_number.getD .nan)
  else if a.is_string && b.is_string then a.as_string == b.as_string
  else false

end Object

/-- `std::usize::MAX` on a 64-bit target. -/
def usizeMax : Nat := 2 ^ 64 - 1

/-- `Object::arity`: declared arity for a builtin, parameter count for a
function, `usize::MAX` otherwise. -/
def Object.arity : Object → Nat
  | .builtinFunction a _ => a
  | .function f => f.declaration.params.length
  | _ => usizeMax

/-! ## Environment, interpreter and the call protocol -/

/-- Modelled from the spec: `environment.rs` is not among the sources.  §4.2:
a name→value map for the current scope plus an optional link to an enclosing
scope; `define` inserts/overwrites in the current scope only; `get` walks
outward.  The map is an association list read through its first matching
entry, so a later `define` of a name overwrites an earlier one. -/
inductive Environment where
  | mk (values : List (List Nat × Object)) (enclosing : Option Environment)

/-- The current scope's bindings. -/
def Environment.values : Environment → List (List Nat × Object)
  | .mk v _ => v

/-- The link to the enclosing scope (`None` for the global scope). -/
def Environment.enclosing : Environment → Option Environment
  | .mk _ e => e

/-- `Environment::new_enclosed(parent)`: a fresh empty scope linked to
`parent`. -/
def Environment.new_enclosed (parent : Environment) : Environment :=
  .mk [] (some parent)

/-- `Environment::define(name, value)`: insert/overwrite in the current scope
only. -/
def Environment.define (e : Environment) (name : List Nat) (value : Object) :
    Environment :=
  .mk ((name, value) :: e.values) e.enclosing

/-- `Environment::get(name)`: look in the current scope, then walk outward;
`none` models the undefined-variable failure on exhaustion.  (The two arms
split on the enclosing link so that the recursion is structural; together
they read: current scope first, then the enclosing scope if any.) -/
def Environment.get : Environment → List Nat → Option Object
  | .mk vs none, name => vs.lookup name
  | .mk vs (some p), name =>
    match vs.lookup name with
    | some v => some v
    | none => p.get name

/-- Modelled from the spec: `runtime_error.rs` is not among the sources.  §7:
a runtime error carries a message plus position context. -/
structure RuntimeError where
  message : List Nat
  line : Nat

/-- Modelled from the spec: `interpreter.rs` is not among the sources.  The
fields `Object::call` touches: `globals`, the global scope every invocation
encloses (§4.3); `executeBlock`, modelling `Interpreter::execute_block` —
it runs the statements in the given environment and either succeeds or fails
with a runtime error (no claim scrutinises its further effects); and
`native`, the dereference of a `BuiltinFunction`'s stored `fn` pointer by the
pointer identity it is modelled with. -/
structure Interpreter where
  globals : Environment
  executeBlock : List Stmt → Environment → Except RuntimeError Unit
  native : Nat → List Object → Object

/-- The parameter-binding loop of `Object::call`
(`for i in 0..params.len() { environment.define(&params[i].lexeme,
arguments[i].clone()) }`), walking the indices in order; `none` models the
out-of-bounds panic of `arguments[i]` when the arguments run out first. -/
def bindParams (env : Environment) :
    List Token → List Object → Option Environment
  | [], _ => some env
  | _ :: _, [] => none
  | p :: ps, a :: rest => bindParams (env.define p.lexeme a) ps rest

/-- `Object::call`.  `none` models a panic: the out-of-bounds argument
indexing in the binding loop, or the `unreachable!()` on the non-callable
variants.  A `BuiltinFunction` applies its `fn` pointer to the argument list;
a `Function` binds its parameters in a fresh scope enclosing the
interpreter's globals, executes its body there, and yields the nil
singleton's value. -/
def Object.call (self : Object) (it : Interpreter) (arguments : List Object) :
    Option (Except RuntimeError Object) :=
  match self with
  | .builtinFunction _ fid => some (.ok (it.native fid arguments))
  | .function f =>
    match bindParams (Environment.new_enclosed it.globals) f.declaration.params arguments with
    | none => none
    | some environment =>
      match it.executeBlock f.declaration.body environment with
      | .error e => some (.error e)
      | .ok _ => some (.ok Object.nil)
  | _ => none

/-! ## Allocation model for `LoxObject` handles (`Arc<RwLock<Object>>`) -/

/-- Allocation model for `LoxObject = Arc<RwLock<Object>>`: cells live on a
heap, a handle is a cell's index, handle equality is `Arc::ptr_eq`.
`lazy_static` pre-allocates the `NIL`, `TRUE` and `FALSE` cells once per
process; `Arc::new(RwLock::new(..))` appends a fresh cell; `.clone()` copies
a handle without touching the heap. -/
structure Heap where
  cells : List Object

/-- The handle of the `NIL` static cell. -/
def nilHandle : Nat := 0

/-- The handle of the `TRUE` static cell. -/
def trueHandle : Nat := 1

/-- The handle of the `FALSE` static cell. -/
def falseHandle : Nat := 2

/-- The heap right after `lazy_static` initialisation: the three singleton
cells. -/
def initHeap : Heap :=
  ⟨[Object.nil, Object.bool true, Object.bool false]⟩

namespace Heap

/-- `Arc::new(RwLock::new(o))`: append a fresh cell, return its handle. -/
def alloc (h : Heap) (o : Object) : Nat × Heap :=
  (h.cells.length, ⟨h.cells ++ [o]⟩)

/-- `Object::nil()`: `NIL.clone()` — the singleton's handle, no allocation. -/
def nilF (h : Heap) : Nat × Heap :=
  (nilHandle, h)

/-- `Object::new_bool(value)`: `TRUE.clone()` or `FALSE.clone()` — a
singleton handle, no allocation. -/
def new_bool (value : Bool) (h : Heap) : Nat × Heap :=
  (if value then trueHandle else falseHandle, h)

/-- `Object::new_number(value)`: a freshly allocated cell. -/
def new_number (value : F64) (h : Heap) : Nat × Heap :=
  h.alloc (.number value)

/-- `Object::new_string(value)`: a freshly allocated cell. -/
def new_string (value : List Nat) (h : Heap) : Nat × Heap :=
  h.alloc (.string value)

end Heap

/-- A minimal interpreter fixture for concrete instantiations: empty global
scope, a block executor that always succeeds, a native table returning nil. -/
def itFix : Interpreter :=
  { globals := .mk [] none,
    executeBlock := fun _ _ => Except.ok (),
    native := fun _ _ => Object.nil }

/-- A one-parameter function-declaration fixture (`fun g(a) {}`). -/
def declFix : FunctionDecl :=
  .mk { kind := TokenKind.Identifier, lexeme := strBytes "g", line := 1 }
    [{ kind := TokenKind.Identifier, lexeme := strBytes "a", line := 1 }]
    []

/-! ## Theorems -/

/-- C3: `as_number` returns the wrapped value unchanged for Number(n),
1 for Bool(true), 0 for Bool(false), 0 for Nil, and for String(s) the byte
length of s — not a parsed numeric value of the text, witnessed by `"25"`
mapping to 2. -/
theorem as_number_coercion :
    (∀ n : F64, (Object.number n).as_number = some n)
    ∧ (Object.bool true).as_number = some (F64.fin 1)
    ∧ (Object.bool false).as_number = some (F64.fin 0)
    ∧ Object.nil.as_number = some (F64.fin 0)
    ∧ (∀ s : List Nat, (Object.string s).as_number = some (F64.fin s.length))
    ∧ (Object.string (strBytes "25")).as_number = some (F64.fin 2) := by
  refine ⟨fun n => rfl, rfl, rfl, rfl, fun s => rfl, by decide⟩

/-- C5: `as_bool` returns false exactly for Nil and Bool(false), and true for
every other Object, including Number(0), Number(NaN), the empty String and
either callable variant. -/
theorem as_bool_coercion :
    Object.nil.as_bool = false
    ∧ (Object.bool false).as_bool = false
    ∧ (Object.bool true).as_bool = true
    ∧ (∀ s : List Nat, (Object.string s).as_bool = true)
    ∧ (∀ n : F64, (Object.number n).as_bool = true)
    ∧ (∀ a fid, (Object.builtinFunction a fid).as_bool = true)
    ∧ (∀ f, (Object.function f).as_bool = true)
    ∧ (Object.number (F64.fin 0)).as_bool = true
    ∧ (Object.number F64.nan).as_bool = true
    ∧ (Object.string []).as_bool = true := by
  exact ⟨rfl, rfl, rfl, fun s => rfl, fun n => rfl, fun a fid => rfl,
    fun f => rfl, rfl, rfl, rfl⟩

/-- C10: `as_number` is partial at the public interface: it hits the
`unreachable!()` branch (modelled by `none`) exactly on the two callable
variants, and is defined on every other variant — unlike the classification
predicates, which are total over the tag. -/
theorem as_number_partial_on_callables :
    (∀ a fid, (Object.builtinFunction a fid).as_number = none)
    ∧ (∀ f, (Object.function f).as_number = none)
    ∧ (∀ o : Object, o.as_number.isSome = !o.is_callable) := by
  refine ⟨fun a fid => rfl, fun f => rfl, fun o => ?_⟩
  cases o <;> rfl

/-- C4: Object equality is variant-matched — Nil equals only Nil; Bool,
Number and String compare by contained value with Number under IEEE equality
(so NaN ≠ NaN); every other pairing, two BuiltinFunction or two Function
values included, is unequal; in particular Nil == Bool(false) and
String("1") == Number(1) are false. -/
theorem object_eq_variant_matched :
    (∀ a b : Object, Object.eq a b =
      (match a, b with
       | .nil, .nil => true
       | .bool x, .bool y => x == y
       | .number x, .number y => F64.feq x y
       | .string x, .string y => x == y
       | _, _ => false))
    ∧ Object.eq (.number .nan) (.number .nan) = false
    ∧ Object.eq .nil (.bool false) = false
    ∧ Object.eq (.string (strBytes "1")) (.number (.fin 1)) = false := by
  refine ⟨fun a b => ?_, rfl, rfl, rfl⟩
  cases a <;> cases b <;> rfl

/-- C8: identifiers are classified against the fixed keyword table (with
first-letter dispatch and second-letter dispatch for the ambiguous prefixes
`f` and `t`) before defaulting to Identifier: every table entry scans to its
keyword kind, while `"thisvar"` and `"forest"` scan to Identifier. -/
theorem keyword_classification :
    (keywordTable.all fun kw =>
        decide ((Scanner.scan_token (Scanner.new (strBytes kw.1))).1.kind = kw.2)) = true
    ∧ (Scanner.scan_token (Scanner.new (strBytes "for"))).1.kind = TokenKind.For
    ∧ (Scanner.scan_token (Scanner.new (strBytes "this"))).1.kind = TokenKind.This
    ∧ (Scanner.scan_token (Scanner.new (strBytes "thisvar"))).1.kind = TokenKind.Identifier
    ∧ (Scanner.scan_token (Scanner.new (strBytes "forest"))).1.kind = TokenKind.Identifier := by
  decide

/-- C9: `nil()`, `new_bool(true)` and `new_bool(false)` return the same
process-wide singleton handle on every call without allocating, while
`new_number` and `new_string` allocate a fresh cell per call whose handle
differs from every handle valid before the call (hence from the singleton
handles in any heap containing them, and from any other call's result). -/
theorem singleton_and_fresh_allocation :
    (∀ h h2 : Heap, (Heap.nilF h).1 = (Heap.nilF h2).1 ∧ (Heap.nilF h).2 = h)
    ∧ (∀ h h2 : Heap,
        (Heap.new_bool true h).1 = (Heap.new_bool true h2).1
        ∧ (Heap.new_bool false h).1 = (Heap.new_bool false h2).1
        ∧ (Heap.new_bool true h).2 = h ∧ (Heap.new_bool false h).2 = h)
    ∧ (∀ (h : Heap) (x : F64) (p : Nat),
        p < h.cells.length → (Heap.new_number x h).1 ≠ p)
    ∧ (∀ (h : Heap) (v : List Nat) (p : Nat),
        p < h.cells.length → (Heap.new_string v h).1 ≠ p)
    ∧ (∀ (h : Heap) (x : F64),
        ((Heap.new_number x h).2).cells.length = h.cells.length + 1)
    ∧ (∀ (h : Heap) (v : List Nat),
        ((Heap.new_string v h).2).cells.length = h.cells.length + 1)
    ∧ (∀ (h : Heap) (x y : F64),
        (Heap.new_number y (Heap.new_number x h).2).1 ≠ (Heap.new_number x h).1) := by
  refine ⟨fun h h2 => ⟨rfl, rfl⟩, fun h h2 => ⟨rfl, rfl, rfl, rfl⟩,
    fun h x p hp => ?_, fun h v p hp => ?_, fun h x => ?_, fun h v => ?_,
    fun h x y => ?_⟩
  · simp only [Heap.new_number, Heap.alloc]; omega
  · simp only [Heap.new_string, Heap.alloc]; omega
  · simp [Heap.new_number, Heap.alloc]
  · simp [Heap.new_string, Heap.alloc]
  · simp [Heap.new_number, Heap.alloc]

/-- Unfolding equation of `Environment.get` on a constructor. -/
theorem Environment.get_mk (vs : List (List Nat × Object))
    (enc : Option Environment) (name : List Nat) :
    Environment.get (.mk vs enc) name =
      (match vs.lookup name with
       | some v => some v
       | none =>
         match enc with
         | some p => p.get name
         | none => none) := by
  cases enc with
  | none => cases h : vs.lookup name <;> simp [Environment.get, h]
  | some p => cases h : vs.lookup name <;> simp [Environment.get, h]

/-- Looking a name up after `define` finds the new binding for that name and
is otherwise unchanged. -/
theorem Environment.get_define (e : Environment) (n : List Nat) (v : Object)
    (name : List Nat) :
    (e.define n v).get name = if name = n then some v else e.get name := by
  cases e with
  | mk vs enc =>
    by_cases h : name = n
    · simp [Environment.define, Environment.values, Environment.enclosing,
        Environment.get_mk, List.lookup, h]
    · simp [Environment.define, Environment.values, Environment.enclosing,
        Environment.get_mk, List.lookup, beq_false_of_ne h, h]

/-- The binding loop of `Object::call` succeeds whenever the arguments cover
the parameters. -/
theorem bindParams_isSome (params : List Token) :
    ∀ (env : Environment) (args : List Object),
      params.length ≤ args.length → (bindParams env params args).isSome = true := by
  induction params with
  | nil => intro env args _; rfl
  | cons p ps ih =>
    intro env args h
    cases args with
    | nil => simp at h
    | cons a rest =>
      exact ih (env.define p.lexeme a) rest (by simpa using h)

/-- The binding loop only touches the current scope: the enclosing link is
the one the loop started from. -/
theorem bindParams_enclosing (params : List Token) :
    ∀ (env : Environment) (args : List Object) (env2 : Environment),
      bindParams env params args = some env2 → env2.enclosing = env.enclosing := by
  induction params with
  | nil =>
    intro env args env2 h
    cases h; rfl
  | cons p ps ih =>
    intro env args env2 h
    cases args with
    | nil => exact absurd h (by simp [bindParams])
    | cons a rest => exact ih (env.define p.lexeme a) rest env2 h

/-- Names outside the parameter list read the same before and after the
binding loop. -/
theorem bindParams_get_of_not_mem (params : List Token) :
    ∀ (env : Environment) (args : List Object) (env2 : Environment)
      (name : List Nat),
      bindParams env params args = some env2 →
      name ∉ params.map Token.lexeme →
      env2.get name = env.get name := by
  induction params with
  | nil =>
    intro env args env2 name h _
    cases h; rfl
  | cons p ps ih =>
    intro env args env2 name h hmem
    cases args with
    | nil => exact absurd h (by simp [bindParams])
    | cons a rest =>
      have h1 : name ≠ p.lexeme := by
        intro he; exact hmem (by simp [he])
      have h2 : name ∉ ps.map Token.lexeme := fun hc => hmem (by simp [hc])
      rw [ih (env.define p.lexeme a) rest env2 name h h2,
        Environment.get_define, if_neg h1]

/-- After the binding loop, each parameter name (the names being distinct)
reads the argument at its position. -/
theorem bindParams_get_nth (params : List Token) :
    ∀ (env : Environment) (args : List Object) (env2 : Environment),
      (params.map Token.lexeme).Nodup →
      args.length = params.length →
      bindParams env params args = some env2 →
      ∀ i, i < params.length →
        env2.get ((params.getD i Token.default).lexeme)
          = some (args.getD i Object.nil) := by
  induction params with
  | nil =>
    intro env args env2 _ _ _ i hi
    exact absurd hi (by simp)
  | cons p ps ih =>
    intro env args env2 hnd hlen hbind i hi
    cases args with
    | nil => simp at hlen
    | cons a rest =>
      have hbind2 : bindParams (env.define p.lexeme a) ps rest = some env2 := hbind
      cases i with
      | zero =>
        have hmem : p.lexeme ∉ ps.map Token.lexeme :=
          (List.nodup_cons.mp (by simpa using hnd)).1
        have hpre := bindParams_get_of_not_mem ps (env.define p.lexeme a) rest
          env2 p.lexeme hbind2 hmem
        simp [hpre, Environment.get_define]
      | succ j =>
        have hj : j < ps.length := by simpa using hi
        have := ih (env.define p.lexeme a) rest env2
          (List.nodup_cons.mp (by simpa using hnd)).2 (by simpa using hlen)
          hbind2 j hj
        simpa using this

/-- C1: calling a user-defined Function value builds a fresh environment
whose enclosing scope is the interpreter's globals (not a declaration-site or
caller scope — a `LoxFunction` holds no environment at all), binds each
declared parameter name positionally to the corresponding argument, executes
the body in exactly that environment, and returns Nil whenever the body
executes without a runtime error. -/
theorem function_call_protocol (it : Interpreter) (f : LoxFunction)
    (args : List Object)
    (hlen : args.length = f.declaration.params.length) :
    ∃ env : Environment,
      bindParams (Environment.new_enclosed it.globals) f.declaration.params args
          = some env
      ∧ env.enclosing = some it.globals
      ∧ ((f.declaration.params.map Token.lexeme).Nodup →
          ∀ i, i < f.declaration.params.length →
            env.get ((f.declaration.params.getD i Token.default).lexeme)
              = some (args.getD i Object.nil))
      ∧ (it.executeBlock f.declaration.body env = Except.ok () →
          (Object.function f).call it args = some (Except.ok Object.nil))
      ∧ (∀ e : RuntimeError,
          it.executeBlock f.declaration.body env = Except.error e →
          (Object.function f).call it args = some (Except.error e)) := by
  have hb := bindParams_isSome f.declaration.params
    (Environment.new_enclosed it.globals) args (le_of_eq hlen.symm)
  obtain ⟨env, henv⟩ := Option.isSome_iff_exists.mp hb
  refine ⟨env, henv, ?_, ?_, ?_, ?_⟩
  · rw [bindParams_enclosing _ _ _ _ henv]; rfl
  · intro hnd i hi
    exact bindParams_get_nth _ _ _ _ hnd hlen henv i hi
  · intro hok
    simp [Object.call, henv, hok]
  · intro e he
    simp [Object.call, henv, he]

/-- Witness for C1 at a concrete input: a one-parameter function called with
one argument under the fixture interpreter. -/
theorem function_call_protocol_witness :
    ([Object.number (F64.fin 5)].length = declFix.params.length)
    ∧ ∃ env : Environment,
      bindParams (Environment.new_enclosed itFix.globals) declFix.params
          [Object.number (F64.fin 5)] = some env
      ∧ env.enclosing = some itFix.globals
      ∧ ((declFix.params.map Token.lexeme).Nodup →
          ∀ i, i < declFix.params.length →
            env.get ((declFix.params.getD i Token.default).lexeme)
              = some ([Object.number (F64.fin 5)].getD i Object.nil))
      ∧ (itFix.executeBlock declFix.body env = Except.ok () →
          (Object.function ⟨declFix⟩).call itFix [Object.number (F64.fin 5)]
            = some (Except.ok Object.nil))
      ∧ (∀ e : RuntimeError,
          itFix.executeBlock declFix.body env = Except.error e →
          (Object.function ⟨declFix⟩).call itFix [Object.number (F64.fin 5)]
            = some (Except.error e)) :=
  ⟨rfl, function_call_protocol itFix ⟨declFix⟩ [Object.number (F64.fin 5)] rfl⟩

/-- C2: under the evaluator's precondition — the argument count equals the
callee's arity and the callee is callable — every positional argument index
inside `call` is in bounds and neither the out-of-bounds panic nor the
`unreachable!()` branch (both modelled by `none`) is reached. -/
theorem call_in_bounds (self : Object) (it : Interpreter) (args : List Object)
    (hlen : args.length = self.arity)
    (hcall : self.is_callable = true) :
    (self.call it args).isSome = true := by
  cases self with
  | nil => simp [Object.is_callable] at hcall
  | string s => simp [Object.is_callable] at hcall
  | number n => simp [Object.is_callable] at hcall
  | bool b => simp [Object.is_callable] at hcall
  | builtinFunction a fid => rfl
  | function f =>
    have hle : f.declaration.params.length ≤ args.length := le_of_eq hlen.symm
    obtain ⟨env, henv⟩ := Option.isSome_iff_exists.mp
      (bindParams_isSome f.declaration.params (Environment.new_enclosed it.globals)
        args hle)
    cases hex : it.executeBlock f.declaration.body env with
    | error e => simp [Object.call, henv, hex]
    | ok u => simp [Object.call, henv, hex]

/-- Witness for C2 at concrete inputs: the fixture function called with one
argument, and a two-argument builtin called with two arguments. -/
theorem call_in_bounds_witness :
    (([Object.nil].length = (Object.function ⟨declFix⟩).arity)
      ∧ (Object.function ⟨declFix⟩).is_callable = true
      ∧ ((Object.function ⟨declFix⟩).call itFix [Object.nil]).isSome = true)
    ∧ (([Object.nil, Object.nil].length = (Object.builtinFunction 2 0).arity)
      ∧ (Object.builtinFunction 2 0).is_callable = true
      ∧ ((Object.builtinFunction 2 0).call itFix [Object.nil, Object.nil]).isSome
          = true) :=
  ⟨⟨rfl, rfl, call_in_bounds (Object.function ⟨declFix⟩) itFix [Object.nil] rfl rfl⟩,
   ⟨rfl, rfl, call_in_bounds (Object.builtinFunction 2 0) itFix
      [Object.nil, Object.nil] rfl rfl⟩⟩

/-- Witness for C9's freshness hypotheses at a concrete input: in the heap
right after `lazy_static` initialisation, a freshly allocated number cell's
handle differs from each singleton handle. -/
theorem singleton_and_fresh_allocation_witness :
    (nilHandle < initHeap.cells.length
      ∧ (Heap.new_number (F64.fin 7) initHeap).1 ≠ nilHandle)
    ∧ (falseHandle < initHeap.cells.length
      ∧ (Heap.new_number (F64.fin 7) initHeap).1 ≠ falseHandle) :=
  ⟨⟨by decide,
    singleton_and_fresh_allocation.2.2.1 initHeap (F64.fin 7) nilHandle (by decide)⟩,
   ⟨by decide,
    singleton_and_fresh_allocation.2.2.1 initHeap (F64.fin 7) falseHandle (by decide)⟩⟩

/-- A non-sentinel peek means the read position is inside the buffer. -/
theorem Scanner.peek_lt_of_ne_zero (s : Scanner) (h : s.peek ≠ 0) :
    s.current < s.source.length := by
  by_contra hge
  apply h
  simp only [Scanner.peek]
  exact List.getD_eq_default _ _ (Nat.le_of_not_lt hge)

/-- The comment loop does not touch the source. -/
theorem Scanner.skipLineComment_source (s : Scanner) :
    s.skipLineComment.source = s.source := rfl

/-- The comment loop never moves backwards. -/
theorem Scanner.skipLineComment_le (s : Scanner) :
    s.current ≤ s.skipLineComment.current := by
  simp [Scanner.skipLineComment]

/-- The comment loop never moves past the end of the buffer. -/
theorem Scanner.skipLineComment_bound (s : Scanner)
    (h : s.current ≤ s.source.length) :
    s.skipLineComment.current ≤ s.source.length := by
  simp only [Scanner.skipLineComment]
  have h1 : ((s.source.drop s.current).takeWhile (fun c => c != 10)).length
      ≤ (s.source.drop s.current).length :=
    (List.takeWhile_sublist _).length_le
  rw [List.length_drop] at h1
  omega

/-- Whitespace skipping preserves the source, never moves backwards, and
never moves past the end of the buffer. -/
theorem Scanner.skipWsFuel_inv (fuel : Nat) :
    ∀ s : Scanner,
      (Scanner.skipWsFuel fuel s).source = s.source
      ∧ s.current ≤ (Scanner.skipWsFuel fuel s).current
      ∧ (s.current ≤ s.source.length →
          (Scanner.skipWsFuel fuel s).current ≤ s.source.length) := by
  induction fuel with
  | zero => exact fun s => ⟨rfl, Nat.le_refl _, fun h => h⟩
  | succ n ih =>
    intro s
    simp only [Scanner.skipWsFuel]
    by_cases hws : s.peek = 32 ∨ s.peek = 13 ∨ s.peek = 9
    · rw [if_pos hws]
      have hne : s.peek ≠ 0 := by rcases hws with h | h | h <;> simp [h]
      have hlt := Scanner.peek_lt_of_ne_zero s hne
      obtain ⟨h1, h2, h3⟩ := ih (s.advance).2
      exact ⟨h1, Nat.le_trans (Nat.le_succ _) h2, fun _ => h3 hlt⟩
    · rw [if_neg hws]
      by_cases hnl : s.peek = 10
      · rw [if_pos hnl]
        have hlt := Scanner.peek_lt_of_ne_zero s (by simp [hnl])
        obtain ⟨h1, h2, h3⟩ := ih ({ s with line := s.line + 1 }.advance).2
        exact ⟨h1, Nat.le_trans (Nat.le_succ _) h2, fun _ => h3 hlt⟩
      · rw [if_neg hnl]
        by_cases hsl : s.peek = 47
        · rw [if_pos hsl]
          by_cases hnx : s.peek_next = 47
          · rw [if_pos hnx]
            obtain ⟨h1, h2, h3⟩ := ih s.skipLineComment
            refine ⟨by rw [h1, Scanner.skipLineComment_source],
              Nat.le_trans (Scanner.skipLineComment_le s) h2, fun hc => ?_⟩
            have := h3 (by
              rw [Scanner.skipLineComment_source]
              exact Scanner.skipLineComment_bound s hc)
            rwa [Scanner.skipLineComment_source] at this
          · rw [if_neg hnx]
            exact ⟨rfl, Nat.le_refl _, fun h => h⟩
        · rw [if_neg hsl]
          exact ⟨rfl, Nat.le_refl _, fun h => h⟩

/-- `skip_whitespace` preserves the source. -/
theorem Scanner.skip_whitespace_source (s : Scanner) :
    s.skip_whitespace.source = s.source :=
  (Scanner.skipWsFuel_inv _ s).1

/-- `skip_whitespace` never moves backwards. -/
theorem Scanner.skip_whitespace_le (s : Scanner) :
    s.current ≤ s.skip_whitespace.current :=
  (Scanner.skipWsFuel_inv _ s).2.1

/-- `skip_whitespace` never moves past the end of the buffer. -/
theorem Scanner.skip_whitespace_bound (s : Scanner)
    (h : s.current ≤ s.source.length) :
    s.skip_whitespace.current ≤ s.source.length :=
  (Scanner.skipWsFuel_inv _ s).2.2 h

/-- At the end of input `skip_whitespace` is the identity: the peeked
sentinel is no whitespace byte. -/
theorem Scanner.skip_whitespace_at_end (s : Scanner)
    (h : s.source.length ≤ s.current) : s.skip_whitespace = s := by
  have h0 : s.peek = 0 := by
    simp only [Scanner.peek]
    exact List.getD_eq_default _ _ h
  simp only [Scanner.skip_whitespace, Nat.sub_eq_zero_of_le h]
  simp [Scanner.skipWsFuel, h0]

/-- `matchesB` preserves the source, moves forward by at most one byte, and
stays inside the buffer. -/
theorem Scanner.matchesB_bounds (s : Scanner) (e : Nat)
    (h : s.current ≤ s.source.length) :
    (s.matchesB e).2.source = s.source
    ∧ s.current ≤ (s.matchesB e).2.current
    ∧ (s.matchesB e).2.current ≤ s.source.length := by
  simp only [Scanner.matchesB]
  split
  · exact ⟨rfl, Nat.le_refl _, h⟩
  · rename_i hcnd
    push_neg at hcnd
    have : ¬ (s.source.length ≤ s.current) := by
      simpa [Scanner.is_at_end] using hcnd.1
    exact ⟨rfl, Nat.le_succ _, by dsimp only; omega⟩

/-- The string loop preserves the source, moves forward, and stays inside
the buffer. -/
theorem Scanner.string_bounds (s : Scanner) (h : s.current ≤ s.source.length) :
    s.string.2.source = s.source
    ∧ s.current ≤ s.string.2.current
    ∧ s.string.2.current ≤ s.source.length := by
  have hseg : ((s.source.drop s.current).takeWhile (fun c => c != 34)).length
      ≤ s.source.length - s.current := by
    have h1 := (List.takeWhile_sublist
      (l := s.source.drop s.current) (fun c => c != 34)).length_le
    rwa [List.length_drop] at h1
  simp only [Scanner.string]
  split
  · exact ⟨rfl, Nat.le_add_right _ _, by dsimp only; omega⟩
  · rename_i hend
    simp only [Scanner.is_at_end, decide_eq_true_eq] at hend
    exact ⟨rfl, by simp [Scanner.advance]; omega, by simp [Scanner.advance]; omega⟩

/-- The number loops preserve the source, move forward, and stay inside the
buffer. -/
theorem Scanner.number_bounds (s : Scanner) (h : s.current ≤ s.source.length) :
    s.number.2.source = s.source
    ∧ s.current ≤ s.number.2.current
    ∧ s.number.2.current ≤ s.source.length := by
  have hseg : ((s.source.drop s.current).takeWhile Scanner.isAsciiDigit).length
      ≤ s.source.length - s.current := by
    have h1 := (List.takeWhile_sublist
      (l := s.source.drop s.current) Scanner.isAsciiDigit).length_le
    rwa [List.length_drop] at h1
  simp only [Scanner.number]
  split
  · rename_i hdot
    have hlt : s.current
        + ((s.source.drop s.current).takeWhile Scanner.isAsciiDigit).length
        < s.source.length := by
      have := Scanner.peek_lt_of_ne_zero _ (by rw [hdot.1]; decide)
      simpa using this
    have hseg2 : ((s.source.drop (s.current
          + ((s.source.drop s.current).takeWhile Scanner.isAsciiDigit).length
          + 1)).takeWhile Scanner.isAsciiDigit).length
        ≤ s.source.length - (s.current
          + ((s.source.drop s.current).takeWhile Scanner.isAsciiDigit).length
          + 1) := by
      have h1 := (List.takeWhile_sublist
        (l := s.source.drop (s.current
          + ((s.source.drop s.current).takeWhile Scanner.isAsciiDigit).length
          + 1)) Scanner.isAsciiDigit).length_le
      rwa [List.length_drop] at h1
    refine ⟨rfl, ?_, ?_⟩
    · simp only [Scanner.advance]
      omega
    · simp only [Scanner.advance] at hseg2 ⊢
      omega
  · exact ⟨rfl, Nat.le_add_right _ _, by dsimp only; omega⟩

/-- The identifier loop preserves the source, moves forward, and stays
inside the buffer. -/
theorem Scanner.identifier_bounds (s : Scanner)
    (h : s.current ≤ s.source.length) :
    s.identifier.2.source = s.source
    ∧ s.current ≤ s.identifier.2.current
    ∧ s.identifier.2.current ≤ s.source.length := by
  have hseg : ((s.source.drop s.current).takeWhile
        (fun c => Scanner.isAlpha c || Scanner.isAsciiDigit c)).length
      ≤ s.source.length - s.current := by
    have h1 := (List.takeWhile_sublist (l := s.source.drop s.current)
      (fun c => Scanner.isAlpha c || Scanner.isAsciiDigit c)).length_le
    rwa [List.length_drop] at h1
  exact ⟨rfl, Nat.le_add_right _ _, by simp only [Scanner.identifier]; omega⟩

/-- C7: every call to `scan_token` preserves the source, keeps the read
position inside the buffer, never moves backwards, and either advances the
position by at least one byte or returns an Eof token; once the end is
reached a call returns Eof and does not move — so repeatedly calling
`scan_token` on a finite input terminates, and no read position ever passes
the end of the source buffer. -/
theorem scan_token_progress (s : Scanner) (hc : s.current ≤ s.source.length) :
    s.scan_token.2.source = s.source
    ∧ s.scan_token.2.current ≤ s.source.length
    ∧ s.current ≤ s.scan_token.2.current
    ∧ (s.scan_token.1.kind = TokenKind.Eof ∨ s.current < s.scan_token.2.current)
    ∧ (s.source.length ≤ s.current →
        s.scan_token.1.kind = TokenKind.Eof ∧ s.scan_token.2.current = s.current) := by
  have hsrc := Scanner.skip_whitespace_source s
  have hle := Scanner.skip_whitespace_le s
  have hbd := Scanner.skip_whitespace_bound s hc
  simp only [Scanner.scan_token, Scanner.advance]
  set t := s.skip_whitespace with ht
  have hlen : t.source.length = s.source.length := by rw [hsrc]
  split
  · refine ⟨hsrc, hbd, hle, Or.inl rfl, fun hge => ⟨rfl, ?_⟩⟩
    show t.current = s.current
    omega
  · rename_i hend
    have hlt : t.current < s.source.length := by
      simp only [Scanner.is_at_end, decide_eq_true_eq, Nat.not_le] at hend
      omega
    split
    all_goals try exact ⟨hsrc, Nat.succ_le_of_lt hlt,
      Nat.le_trans hle (Nat.le_succ _), Or.inr (Nat.lt_succ_of_le hle),
      fun hge => False.elim (by omega)⟩
    all_goals try
      (obtain ⟨b1, b2, b3⟩ := Scanner.matchesB_bounds
        { source := t.source, start := t.current, current := t.current + 1,
          line := t.line } 61 (by dsimp only; omega)
       dsimp only at b1 b2 b3 ⊢
       exact ⟨by rw [b1]; exact hsrc, by omega, by omega, Or.inr (by omega),
         fun hge => False.elim (by omega)⟩)
    all_goals try
      (obtain ⟨b1, b2, b3⟩ := Scanner.string_bounds
        { source := t.source, start := t.current, current := t.current + 1,
          line := t.line } (by dsimp only; omega)
       dsimp only at b1 b2 b3
       exact ⟨by rw [b1]; exact hsrc, by omega, by omega, Or.inr (by omega),
         fun hge => False.elim (by omega)⟩)
    -- remaining: the digit / alpha / error dispatch
    split
    · obtain ⟨b1, b2, b3⟩ := Scanner.number_bounds
        { source := t.source, start := t.current, current := t.current + 1,
          line := t.line } (by dsimp only; omega)
      dsimp only at b1 b2 b3
      exact ⟨by rw [b1]; exact hsrc, by omega, by omega, Or.inr (by omega),
        fun hge => False.elim (by omega)⟩
    · split
      · obtain ⟨b1, b2, b3⟩ := Scanner.identifier_bounds
          { source := t.source, start := t.current, current := t.current + 1,
            line := t.line } (by dsimp only; omega)
        dsimp only at b1 b2 b3
        exact ⟨by rw [b1]; exact hsrc, by omega, by omega, Or.inr (by omega),
          fun hge => False.elim (by omega)⟩
      · exact ⟨hsrc, Nat.succ_le_of_lt hlt,
          Nat.le_trans hle (Nat.le_succ _), Or.inr (Nat.lt_succ_of_le hle),
          fun hge => False.elim (by omega)⟩

/-- Witness for C7 at a concrete input: a fresh scanner over the one-byte
source `"x"`. -/
theorem scan_token_progress_witness :
    ((Scanner.new (strBytes "x")).current
        ≤ (Scanner.new (strBytes "x")).source.length)
    ∧ ((Scanner.new (strBytes "x")).scan_token.2.source
          = (Scanner.new (strBytes "x")).source
      ∧ (Scanner.new (strBytes "x")).scan_token.2.current
          ≤ (Scanner.new (strBytes "x")).source.length
      ∧ (Scanner.new (strBytes "x")).current
          ≤ (Scanner.new (strBytes "x")).scan_token.2.current
      ∧ ((Scanner.new (strBytes "x")).scan_token.1.kind = TokenKind.Eof
          ∨ (Scanner.new (strBytes "x")).current
              < (Scanner.new (strBytes "x")).scan_token.2.current)
      ∧ ((Scanner.new (strBytes "x")).source.length
            ≤ (Scanner.new (strBytes "x")).current →
          (Scanner.new (strBytes "x")).scan_token.1.kind = TokenKind.Eof
          ∧ (Scanner.new (strBytes "x")).scan_token.2.current
              = (Scanner.new (strBytes "x")).current)) :=
  ⟨by decide, scan_token_progress (Scanner.new (strBytes "x")) (by decide)⟩

/-- C6: when `scan_token` meets an opening `"` whose closing `"` never occurs
before end-of-input, it consumes the remaining input to end-of-input and
returns one Error-kind token whose lexeme is the fixed message
"Unterminated string." — the failure is ordinary token data, no exception or
panic is involved. -/
theorem unterminated_string_scan (s : Scanner)
    (hq : s.skip_whitespace.peek = 34)
    (hnc : (34 : Nat) ∉ s.source.drop (s.skip_whitespace.current + 1)) :
    s.scan_token.1.kind = TokenKind.Error
    ∧ s.scan_token.1.lexeme = strBytes "Unterminated string."
    ∧ s.scan_token.2.current = s.source.length := by
  have hsrc := Scanner.skip_whitespace_source s
  simp only [Scanner.peek] at hq
  simp only [Scanner.scan_token, Scanner.advance]
  set t := s.skip_whitespace with ht
  have hlen : t.source.length = s.source.length := by rw [hsrc]
  have hlt : t.current < s.source.length := by
    have h0 := Scanner.peek_lt_of_ne_zero t (by simp only [Scanner.peek, hq]; decide)
    omega
  split
  · rename_i hend
    simp only [Scanner.is_at_end, decide_eq_true_eq] at hend
    rw [hsrc] at hend
    omega
  · split
    all_goals try omega
    -- remaining: the `"` branch, then the catch-all branch
    · have hfull : ((s.source.drop (t.current + 1)).takeWhile (fun c => c != 34))
          = s.source.drop (t.current + 1) :=
        List.takeWhile_eq_self_iff.mpr (fun x hx => by
          have hx34 : x ≠ 34 := fun he => hnc (he ▸ hx)
          simpa using hx34)
      simp only [Scanner.string]
      rw [hsrc, hfull]
      split
      · refine ⟨rfl, rfl, ?_⟩
        dsimp only
        rw [List.length_drop]
        omega
      · rename_i hend2
        simp only [Scanner.is_at_end, decide_eq_true_eq, List.length_drop] at hend2
        omega
    · rename_i h34
      exact absurd hq h34

/-- Witness for C6 at a concrete input: the source `"ab` — an opening quote
that is never closed. -/
theorem unterminated_string_scan_witness :
    ((Scanner.new (strBytes "\"ab")).skip_whitespace.peek = 34
      ∧ (34 : Nat) ∉ (Scanner.new (strBytes "\"ab")).source.drop
          ((Scanner.new (strBytes "\"ab")).skip_whitespace.current + 1))
    ∧ ((Scanner.new (strBytes "\"ab")).scan_token.1.kind = TokenKind.Error
      ∧ (Scanner.new (strBytes "\"ab")).scan_token.1.lexeme
          = strBytes "Unterminated string."
      ∧ (Scanner.new (strBytes "\"ab")).scan_token.2.current
          = (Scanner.new (strBytes "\"ab")).source.length) :=
  ⟨⟨by decide, by decide⟩,
   unterminated_string_scan (Scanner.new (strBytes "\"ab")) (by decide) (by decide)⟩

end Rustlox
